import Mathlib

/-!
Verification of the model-download / job-polling core of the PLAYE desktop
application against its specification.

The JavaScript sources are shallowly embedded as pure Lean functions:

* `scripts/model-utils.js` — `normalizeSha256`, `isPlaceholderUrl`,
  `requestStream`, `downloadToFile` (the checksum downloader);
* `scripts/download-models.js` — `downloadModel`, `downloadMany`;
* `scripts/check-updates.js` — `fetchJson`, `compareVersions`,
  `checkModelUpdates`;
* `frontend/src/api-client.js` — `parseResponse`, `submitJob`,
  `pollJobUntilFinal`;
* `preload.js` — the submit phase of `submitAndPoll`.

Modelling conventions:

* The filesystem is an association list from path to byte content; a byte is
  a `Nat`.  `fs.renameSync` becomes remove-then-write of the same content.
* The network is a pure function from URL to a response description
  (`HttpAnswer` for streamed downloads, `JsonAnswer` for JSON fetches).
  Redirect-following in the source is an unbounded recursion, so it is
  embedded fuel-indexed: a result of `none` means the recursion has not
  settled within the given number of hops.
* SHA-256 itself lives in the Node `crypto` library, outside this
  repository; it is an explicit function parameter `sha256fn` of the
  definitions, and every theorem holds for an arbitrary such function.
* JavaScript truthiness of optional string fields (absent, `null` and `""`
  are falsy) is `strTruthy`; `a || b` on such fields is `jsOrStr`.
* Asynchronous callbacks (`onProgress`) are modelled by returning the list
  of emitted events alongside the result.
-/

set_option autoImplicit false

namespace Playe

/-- JS truthiness of an optional string field: absent / null / "" are falsy. -/
def strTruthy : Option String → Bool
  | none => false
  | some s => s ≠ ""

/-- JS `a || b` for an optional string `a` and a string default `b`. -/
def jsOrStr (a : Option String) (b : String) : String :=
  match a with
  | some s => if s = "" then b else s
  | none => b

/-- Numeric value of a decimal digit run (most significant first). -/
def digitsToNat (cs : List Char) : Nat :=
  cs.foldl (fun a c => a * 10 + (c.toNat - 48)) 0

/-- Model of `Number.parseInt(s, 10)`: skip leading whitespace, optional
sign, then the longest leading digit run; `none` models `NaN`. -/
def jsParseInt (s : String) : Option Int :=
  let cs := s.toList.dropWhile (fun c => c.isWhitespace)
  let signAndRest : Int × List Char :=
    match cs with
    | '-' :: r => (-1, r)
    | '+' :: r => (1, r)
    | r => (1, r)
  let ds := signAndRest.2.takeWhile (fun c => c.isDigit)
  if ds.isEmpty then none else some (signAndRest.1 * (digitsToNat ds : Int))

/-- Model of `Number.parseInt(s, 10) || 0` (`NaN` degrades to 0). -/
def jsParseIntOr0 (s : String) : Int :=
  (jsParseInt s).getD 0

/-- `pat` is an initial segment of `s`. -/
def listStartsWith : List Char → List Char → Bool
  | _, [] => true
  | [], _ :: _ => false
  | c :: cs, p :: ps => c == p && listStartsWith cs ps

/-- `pat` occurs contiguously inside `s` (JS `String.includes`). -/
def listContainsSub (s pat : List Char) : Bool :=
  match s with
  | [] => pat.isEmpty
  | _ :: rest => listStartsWith s pat || listContainsSub rest pat

/-- JS `u.includes(pat)` on strings. -/
def strContainsSub (u pat : String) : Bool :=
  listContainsSub u.toList pat.toList

/-- Model of JS `String.prototype.trim`: drop whitespace at both ends. -/
def jsTrim (s : String) : String :=
  ⟨((s.toList.dropWhile Char.isWhitespace).reverse.dropWhile Char.isWhitespace).reverse⟩

/-- JS `text.startsWith(pat)`. -/
def strStartsWith (s pat : String) : Bool :=
  listStartsWith s.toList pat.toList

/-- JS `text.slice(n)` (the strings involved are ASCII). -/
def strDropChars (s : String) (n : Nat) : String :=
  ⟨s.toList.drop n⟩

/-- Model of JS `String.prototype.toLowerCase` on status strings. -/
def jsToLower (s : String) : String :=
  ⟨s.toList.map Char.toLower⟩

/-! ### Association lists (JS object maps and the filesystem) -/

/-- Lookup in a string-keyed association list (JS `obj[key]`). -/
def lookupAssoc {β : Type} : List (String × β) → String → Option β
  | [], _ => none
  | (k, v) :: rest, key => if k = key then some v else lookupAssoc rest key

/-- Remove a key from an association list. -/
def removeAssoc {β : Type} : List (String × β) → String → List (String × β)
  | [], _ => []
  | (k, v) :: rest, key =>
    if k = key then removeAssoc rest key else (k, v) :: removeAssoc rest key

/-- Set a key in an association list (JS `obj[key] = v`). -/
def setAssoc {β : Type} (l : List (String × β)) (key : String) (v : β) :
    List (String × β) :=
  removeAssoc l key ++ [(key, v)]

/-- A byte of streamed content. -/
abbrev Byte := Nat

/-- File content: a list of bytes. -/
abbrev Bytes := List Byte

/-- The filesystem: association list from path to content. -/
abbrev FS := List (String × Bytes)

/-- Content of the file at `p`, if it exists (`fs.readFileSync`). -/
def fsLookup (fs : FS) (p : String) : Option Bytes :=
  lookupAssoc fs p

/-- Model of `fs.existsSync`. -/
def fsExists (fs : FS) (p : String) : Bool :=
  (fsLookup fs p).isSome

/-- Model of `fs.rmSync(p, { force: true })`. -/
def fsRemove (fs : FS) (p : String) : FS :=
  removeAssoc fs p

/-- Create/overwrite the file at `p` with content `b`. -/
def fsWrite (fs : FS) (p : String) (b : Bytes) : FS :=
  setAssoc fs p b

@[simp]
theorem lookupAssoc_removeAssoc {β : Type} (l : List (String × β)) (p q : String) :
    lookupAssoc (removeAssoc l p) q = if q = p then none else lookupAssoc l q := by
  induction l with
  | nil =>
    by_cases h : q = p <;> simp [lookupAssoc, removeAssoc, h]
  | cons hd tl ih =>
    obtain ⟨k, v⟩ := hd
    by_cases hk : k = p
    · subst hk
      by_cases hq : q = k
      · subst hq
        simp [removeAssoc, ih]
      · have hqk : ¬ k = q := fun h => hq h.symm
        simp [removeAssoc, lookupAssoc, ih, hq, hqk]
    · by_cases hkq : k = q
      · subst hkq
        simp [removeAssoc, hk, lookupAssoc]
      · simp [removeAssoc, hk, lookupAssoc, hkq, ih]

@[simp]
theorem lookupAssoc_append {β : Type} (l₁ l₂ : List (String × β)) (q : String) :
    lookupAssoc (l₁ ++ l₂) q =
      match lookupAssoc l₁ q with
      | some v => some v
      | none => lookupAssoc l₂ q := by
  induction l₁ with
  | nil => simp [lookupAssoc]
  | cons hd tl ih =>
    obtain ⟨k, v⟩ := hd
    by_cases hk : k = q <;> simp [lookupAssoc, hk, ih]

theorem fsLookup_fsWrite (fs : FS) (p q : String) (b : Bytes) :
    fsLookup (fsWrite fs p b) q = if q = p then some b else fsLookup fs q := by
  by_cases h : q = p
  · subst h
    simp [fsLookup, fsWrite, setAssoc, lookupAssoc_append, lookupAssoc_removeAssoc, lookupAssoc]
  · have hpq : ¬ p = q := fun h2 => h h2.symm
    simp only [fsLookup, fsWrite, setAssoc, lookupAssoc_append, lookupAssoc_removeAssoc,
      if_neg h, lookupAssoc, if_neg hpq]
    cases hx : lookupAssoc fs q <;> simp

theorem fsLookup_fsRemove (fs : FS) (p q : String) :
    fsLookup (fsRemove fs p) q = if q = p then none else fsLookup fs q := by
  simp [fsLookup, fsRemove]

/-- A destination path is never equal to its sibling temp path. -/
theorem destPath_ne_tmpPath (destPath : String) : destPath ≠ destPath ++ ".download" := by
  intro h
  have hlen := congrArg String.length h
  simp [String.length_append] at hlen
  exact absurd hlen (by decide)

/-! ### HTTP transfer model and `requestStream` (scripts/model-utils.js) -/

/-- How a response stream terminates: normal end, or a `res.on('error')`. -/
inductive StreamEnd where
  | finished
  | errored (msg : String)
deriving DecidableEq

/-- One HTTP answer of the model-weight server: status code, optional
`Location` header, optional `Content-Length` header (raw string), the body
chunks delivered, and how the stream ends. -/
structure HttpAnswer where
  statusCode : Nat
  location : Option String
  contentLength : Option String
  chunks : List Bytes
  streamEnd : StreamEnd
deriving DecidableEq

/-- Model of `requestStream(url)` from scripts/model-utils.js: on a 3xx
status with a `Location` header it recurses on the new URL with **no hop
limit**; the embedding is fuel-indexed, `none` meaning the recursion has
not settled within `fuel` hops. A non-200 status rejects, a 200 resolves
with the response. -/
def requestStream (server : String → HttpAnswer) : Nat → String → Option (Except String HttpAnswer)
  | 0, _ => none
  | fuel + 1, url =>
    let a := server url
    if 300 ≤ a.statusCode ∧ a.statusCode < 400 ∧ strTruthy a.location then
      requestStream server fuel (jsOrStr a.location "")
    else if a.statusCode ≠ 200 then
      some (.error ("HTTP " ++ toString a.statusCode ++ " for " ++ url))
    else
      some (.ok a)

/-! ### `downloadToFile` (scripts/model-utils.js) -/

/-- Whether the `content-length` header yields a usable total:
`Number.isFinite(total) && total > 0` after `parseInt(header || '0', 10)`. -/
def hasTotalOf (a : HttpAnswer) : Bool :=
  match jsParseInt (jsOrStr a.contentLength "0") with
  | some t => decide (0 < t)
  | none => false

/-- The parsed total size (meaningful only when `hasTotalOf` holds). -/
def totalOf (a : HttpAnswer) : Nat :=
  ((jsParseInt (jsOrStr a.contentLength "0")).getD 0).toNat

/-- The integer percent computed for a cumulative byte count `d`:
`Math.floor((downloaded / total) * 100)` when a total is known, else the
synthetic `Math.min(99, Math.floor(downloaded / (5 * 1024 * 1024)))`. -/
def percentOf (hasTotal : Bool) (total d : Nat) : Nat :=
  if hasTotal then d * 100 / total else min 99 (d / (5 * 1024 * 1024))

/-- State of the `res.on('data', ...)` handler: bytes received so far, the
`lastPercent` de-duplication marker (`none` models the initial `-1`), and
the percents emitted so far. -/
structure ChunkState where
  downloaded : Nat
  lastPercent : Option Nat
  events : List Nat
deriving DecidableEq

/-- One `res.on('data')` callback: advance the byte count, compute the
percent, and emit it only when it differs from `lastPercent`. -/
def onChunk (hasTotal : Bool) (total : Nat) (st : ChunkState) (chunk : Bytes) : ChunkState :=
  if st.lastPercent ≠ some (percentOf hasTotal total (st.downloaded + chunk.length)) then
    ⟨st.downloaded + chunk.length,
      some (percentOf hasTotal total (st.downloaded + chunk.length)),
      st.events ++ [percentOf hasTotal total (st.downloaded + chunk.length)]⟩
  else
    ⟨st.downloaded + chunk.length, st.lastPercent, st.events⟩

instance exceptDecEq {ε α : Type} [DecidableEq ε] [DecidableEq α] : DecidableEq (Except ε α)
  | .error a, .error b => decidable_of_iff (a = b) (by simp)
  | .error _, .ok _ => isFalse (by simp)
  | .ok _, .error _ => isFalse (by simp)
  | .ok a, .ok b => decidable_of_iff (a = b) (by simp)

/-- Successful download result: `{ destPath, sha256, bytes }`. -/
structure DlOk where
  destPath : String
  sha256 : String
  bytes : Nat
deriving DecidableEq

/-- Outcome of `downloadToFile`: final filesystem, the percents passed to
`onProgress` in order, and resolution or rejection. -/
structure DlOutcome where
  fs : FS
  events : List Nat
  result : Except String DlOk
deriving DecidableEq

/-- Processing of a resolved 200 response inside `downloadToFile`: stream
the chunks into the temp file while hashing and reporting progress;
on a stream error delete the temp file and reject; on finish verify the
digest — on mismatch delete the temp file and reject, otherwise rename the
temp file onto the destination, emit the final 100 and resolve. -/
def processResponse (sha256fn : Bytes → String) (a : HttpAnswer) (destPath : String)
    (expectedSha256 : Option String) (fs1 : FS) : DlOutcome :=
  let tmpPath := destPath ++ ".download"
  let hasTotal := hasTotalOf a
  let total := totalOf a
  let st := a.chunks.foldl (onChunk hasTotal total) ⟨0, none, []⟩
  let content := a.chunks.flatten
  let fsTmp := fsWrite fs1 tmpPath content
  match a.streamEnd with
  | .errored msg => ⟨fsRemove fsTmp tmpPath, st.events, .error msg⟩
  | .finished =>
    let actual := sha256fn content
    if strTruthy expectedSha256 = true ∧ actual ≠ expectedSha256.getD "" then
      ⟨fsRemove fsTmp tmpPath, st.events,
        .error ("SHA256 mismatch. Expected " ++ expectedSha256.getD "" ++ ", got " ++ actual)⟩
    else
      ⟨fsWrite (fsRemove fsTmp tmpPath) destPath content, st.events ++ [100],
        .ok ⟨destPath, actual, st.downloaded⟩⟩

/-- Model of `downloadToFile({url, destPath, expectedSha256, onProgress})`:
discard any pre-existing temp file, resolve the request (following
redirects), then process the response stream. `none` means the redirect
recursion never settled within `fuel`. -/
def downloadToFile (sha256fn : Bytes → String) (server : String → HttpAnswer) (fuel : Nat)
    (url destPath : String) (expectedSha256 : Option String) (fs0 : FS) : Option DlOutcome :=
  let tmpPath := destPath ++ ".download"
  let fs1 := if fsExists fs0 tmpPath then fsRemove fs0 tmpPath else fs0
  match requestStream server fuel url with
  | none => none
  | some (.error e) => some ⟨fs1, [], .error e⟩
  | some (.ok a) => some (processResponse sha256fn a destPath expectedSha256 fs1)

/-! ### Spec-side characterization of the progress event stream -/

/-- Cumulative percents after each chunk, starting from `d0` bytes:
the sequence of values `percentOf` takes as the chunks arrive. -/
def chunkPercents (hasTotal : Bool) (total d0 : Nat) : List Bytes → List Nat
  | [] => []
  | c :: cs =>
    percentOf hasTotal total (d0 + c.length) :: chunkPercents hasTotal total (d0 + c.length) cs

/-- Spec-side de-duplication: drop an element equal to the last kept one
(`last` seeds the comparison; `none` models the initial `-1`). -/
def dropConsecDupsFrom (last : Option Nat) : List Nat → List Nat
  | [] => []
  | y :: ys =>
    if some y = last then dropConsecDupsFrom last ys
    else y :: dropConsecDupsFrom (some y) ys

/-- Spec-side de-duplication of a percent sequence. -/
def dropConsecDups (l : List Nat) : List Nat :=
  dropConsecDupsFrom none l

/-- The last element of `l`, or `lp` when `l` is empty. -/
def lastOr (lp : Option Nat) : List Nat → Option Nat
  | [] => lp
  | x :: xs => lastOr (some x) xs

/-- Total byte count of a chunk list. -/
def sumLens (chunks : List Bytes) : Nat :=
  (chunks.map List.length).sum

/-- The data-handler fold is exactly: count the bytes, keep the last
percent, and emit the de-duplicated percent sequence. -/
theorem foldl_onChunk_eq (hasTotal : Bool) (total : Nat) (chunks : List Bytes)
    (d0 : Nat) (lp : Option Nat) (ev0 : List Nat) :
    chunks.foldl (onChunk hasTotal total) ⟨d0, lp, ev0⟩ =
      ⟨d0 + sumLens chunks, lastOr lp (chunkPercents hasTotal total d0 chunks),
        ev0 ++ dropConsecDupsFrom lp (chunkPercents hasTotal total d0 chunks)⟩ := by
  induction chunks generalizing d0 lp ev0 with
  | nil => simp [sumLens, chunkPercents, dropConsecDupsFrom, lastOr]
  | cons c cs ih =>
    by_cases h : some (percentOf hasTotal total (d0 + c.length)) = lp
    · subst h
      have hne : ¬ ((some (percentOf hasTotal total (d0 + c.length)) : Option Nat) ≠
          some (percentOf hasTotal total (d0 + c.length))) := by simp
      simp only [List.foldl_cons, onChunk, if_neg hne, ih, chunkPercents,
        dropConsecDupsFrom, if_pos rfl, lastOr]
      simp [sumLens, Nat.add_assoc]
    · have hne : lp ≠ some (percentOf hasTotal total (d0 + c.length)) := fun h2 => h h2.symm
      simp only [List.foldl_cons, onChunk, if_pos hne, chunkPercents, dropConsecDupsFrom,
        if_neg h, lastOr, ih]
      simp [sumLens, Nat.add_assoc]

/-- The de-duplicated percent stream a single `downloadToFile` call passes
to `onProgress` while the body streams in (the terminal 100 excluded). -/
def streamEvents (a : HttpAnswer) : List Nat :=
  dropConsecDups (chunkPercents (hasTotalOf a) (totalOf a) 0 a.chunks)

theorem sumLens_cons (c : Bytes) (cs : List Bytes) :
    sumLens (c :: cs) = c.length + sumLens cs := by
  simp [sumLens]

theorem percentOf_mono (ht : Bool) (t : Nat) {d d' : Nat} (h : d ≤ d') :
    percentOf ht t d ≤ percentOf ht t d' := by
  unfold percentOf
  split
  · exact Nat.div_le_div_right (Nat.mul_le_mul_right 100 h)
  · exact min_le_min (le_refl 99) (Nat.div_le_div_right h)

theorem percentOf_le_100 (t d : Nat) (ht0 : 0 < t) (hd : d ≤ t) :
    percentOf true t d ≤ 100 := by
  unfold percentOf
  simp only [if_pos rfl]
  calc d * 100 / t ≤ t * 100 / t := Nat.div_le_div_right (Nat.mul_le_mul_right 100 hd)
    _ = 100 := by rw [Nat.mul_div_cancel_left 100 ht0]

theorem percentOf_false_le_99 (t d : Nat) : percentOf false t d ≤ 99 := by
  simp [percentOf]

/-- When the header total is usable, it is positive. -/
theorem totalOf_pos (a : HttpAnswer) (h : hasTotalOf a = true) : 0 < totalOf a := by
  unfold hasTotalOf at h
  unfold totalOf
  cases hp : jsParseInt (jsOrStr a.contentLength "0") with
  | none => rw [hp] at h; simp at h
  | some t =>
    rw [hp] at h
    simp only [decide_eq_true_eq] at h
    simpa using h

/-- Every emitted percent comes from `percentOf` at some intermediate byte
count between `d0` and the full received size. -/
theorem chunkPercents_mem (ht : Bool) (t : Nat) (chunks : List Bytes) (d0 : Nat) :
    ∀ y ∈ chunkPercents ht t d0 chunks,
      ∃ d, d0 ≤ d ∧ d ≤ d0 + sumLens chunks ∧ y = percentOf ht t d := by
  induction chunks generalizing d0 with
  | nil => simp [chunkPercents]
  | cons c cs ih =>
    intro y hy
    simp only [chunkPercents, List.mem_cons] at hy
    rcases hy with rfl | hy
    · exact ⟨d0 + c.length, Nat.le_add_right _ _, by rw [sumLens_cons]; omega, rfl⟩
    · rcases ih (d0 + c.length) y hy with ⟨d, h1, h2, h3⟩
      refine ⟨d, by omega, ?_, h3⟩
      rw [sumLens_cons]; omega

/-- The raw percent sequence is monotone non-decreasing. -/
theorem chunkPercents_pairwise (ht : Bool) (t : Nat) (chunks : List Bytes) (d0 : Nat) :
    (chunkPercents ht t d0 chunks).Pairwise (· ≤ ·) := by
  induction chunks generalizing d0 with
  | nil => simp [chunkPercents]
  | cons c cs ih =>
    simp only [chunkPercents, List.pairwise_cons]
    refine ⟨?_, ih _⟩
    intro y hy
    rcases chunkPercents_mem ht t cs (d0 + c.length) y hy with ⟨d, h1, _, rfl⟩
    exact percentOf_mono ht t h1

theorem dropConsecDupsFrom_sublist (l : List Nat) (lp : Option Nat) :
    (dropConsecDupsFrom lp l).Sublist l := by
  induction l generalizing lp with
  | nil => simp [dropConsecDupsFrom]
  | cons y ys ih =>
    unfold dropConsecDupsFrom
    by_cases h : some y = lp
    · simp only [if_pos h]
      exact (ih lp).cons y
    · simp only [if_neg h]
      exact (ih (some y)).cons₂ y

/-- The de-duplicated sequence has no two equal consecutive elements, and
its head differs from the seed. -/
theorem dropConsecDupsFrom_chain_ne (l : List Nat) (lp : Option Nat) :
    (dropConsecDupsFrom lp l).Chain' (fun x y => x ≠ y) ∧
      ∀ x, lp = some x → ∀ h ∈ (dropConsecDupsFrom lp l).head?, h ≠ x := by
  induction l generalizing lp with
  | nil => simp [dropConsecDupsFrom]
  | cons y ys ih =>
    unfold dropConsecDupsFrom
    by_cases h : some y = lp
    · simp only [if_pos h]
      exact ih lp
    · simp only [if_neg h]
      refine ⟨?_, ?_⟩
      · rw [List.chain'_cons']
        refine ⟨?_, (ih (some y)).1⟩
        intro z hz
        exact ((ih (some y)).2 y rfl z hz).symm
      · intro x hx hd hhd
        simp only [List.head?_cons, Option.mem_def, Option.some.injEq] at hhd
        subst hhd
        subst hx
        intro he
        exact h (by rw [he])

/-- The de-duplicated sequence keeps the monotonicity of the raw one. -/
theorem streamEvents_pairwise (a : HttpAnswer) :
    (streamEvents a).Pairwise (· ≤ ·) :=
  (chunkPercents_pairwise _ _ _ _).sublist (dropConsecDupsFrom_sublist _ _)

theorem streamEvents_chain_ne (a : HttpAnswer) :
    (streamEvents a).Chain' (fun x y => x ≠ y) :=
  (dropConsecDupsFrom_chain_ne _ _).1

/-- Every streamed percent is at most 100 (at most 99 when the total is
unknown), provided the received size does not exceed a declared total. -/
theorem streamEvents_bound (a : HttpAnswer)
    (htot : hasTotalOf a = true → sumLens a.chunks ≤ totalOf a) :
    (∀ p ∈ streamEvents a, p ≤ 100) ∧
      (hasTotalOf a = false → ∀ p ∈ streamEvents a, p ≤ 99) := by
  have hmem : ∀ p ∈ streamEvents a, p ∈ chunkPercents (hasTotalOf a) (totalOf a) 0 a.chunks :=
    fun p hp => (dropConsecDupsFrom_sublist _ _).mem hp
  constructor
  · intro p hp
    rcases chunkPercents_mem _ _ _ _ p (hmem p hp) with ⟨d, _, hd2, rfl⟩
    cases hht : hasTotalOf a with
    | true =>
      exact percentOf_le_100 _ _ (totalOf_pos a hht) (by have := htot hht; omega)
    | false =>
      calc percentOf false (totalOf a) d ≤ 99 := percentOf_false_le_99 _ _
        _ ≤ 100 := by omega
  · intro hht p hp
    rcases chunkPercents_mem _ _ _ _ p (hmem p hp) with ⟨d, _, _, rfl⟩
    rw [hht]
    exact percentOf_false_le_99 _ _

/-- Appending the terminal 100 keeps the event list monotone. -/
theorem chain_le_append_100 (l : List Nat) (hl : l.Pairwise (· ≤ ·))
    (hb : ∀ y ∈ l, y ≤ 100) : (l ++ [100]).Chain' (· ≤ ·) := by
  rw [List.chain'_iff_pairwise, List.pairwise_append]
  refine ⟨hl, by simp, ?_⟩
  intro x hx y hy
  simp only [List.mem_singleton] at hy
  subst hy
  exact hb x hx

/-- `downloadToFile` after a resolved 200 response is `processResponse` on
the filesystem with the stale temp file discarded. -/
theorem downloadToFile_resolved (sha256fn : Bytes → String) (server : String → HttpAnswer)
    (fuel : Nat) (url destPath : String) (expected : Option String) (fs0 : FS) (a : HttpAnswer)
    (hreq : requestStream server fuel url = some (.ok a)) :
    downloadToFile sha256fn server fuel url destPath expected fs0 =
      some (processResponse sha256fn a destPath expected
        (if fsExists fs0 (destPath ++ ".download") then
          fsRemove fs0 (destPath ++ ".download") else fs0)) := by
  unfold downloadToFile
  rw [hreq]

/-- `processResponse` on a cleanly finished stream: verify then publish. -/
theorem processResponse_finished (sha256fn : Bytes → String) (a : HttpAnswer)
    (destPath : String) (expected : Option String) (fs1 : FS)
    (hend : a.streamEnd = .finished) :
    processResponse sha256fn a destPath expected fs1 =
      if strTruthy expected = true ∧ sha256fn a.chunks.flatten ≠ expected.getD "" then
        ⟨fsRemove (fsWrite fs1 (destPath ++ ".download") a.chunks.flatten) (destPath ++ ".download"),
          streamEvents a,
          .error ("SHA256 mismatch. Expected " ++ expected.getD "" ++ ", got " ++
            sha256fn a.chunks.flatten)⟩
      else
        ⟨fsWrite (fsRemove (fsWrite fs1 (destPath ++ ".download") a.chunks.flatten)
            (destPath ++ ".download")) destPath a.chunks.flatten,
          streamEvents a ++ [100],
          .ok ⟨destPath, sha256fn a.chunks.flatten, sumLens a.chunks⟩⟩ := by
  unfold processResponse
  rw [hend]
  simp only [foldl_onChunk_eq, streamEvents, dropConsecDups, List.nil_append, Nat.zero_add]

/-- C2. Digest enforcement with atomic publication: whenever an expected
digest is supplied (non-empty after normalization) and the computed digest
of the streamed content differs, `downloadToFile` deletes the temp file,
rejects with the SHA256-mismatch error, and the destination path is left
exactly as it was before the call; only on a digest match is the temp file
renamed onto the destination (and on match the destination holds the
streamed content and the temp file is gone). -/
theorem C2_digest_enforcement (sha256fn : Bytes → String) (server : String → HttpAnswer)
    (fuel : Nat) (url destPath : String) (expected : Option String) (fs0 : FS) (a : HttpAnswer)
    (hreq : requestStream server fuel url = some (.ok a))
    (hend : a.streamEnd = .finished)
    (hsupplied : strTruthy expected = true) :
    ∃ o, downloadToFile sha256fn server fuel url destPath expected fs0 = some o ∧
      (sha256fn a.chunks.flatten ≠ expected.getD "" →
        o.result = .error ("SHA256 mismatch. Expected " ++ expected.getD "" ++ ", got " ++
          sha256fn a.chunks.flatten) ∧
        fsLookup o.fs (destPath ++ ".download") = none ∧
        fsLookup o.fs destPath = fsLookup fs0 destPath) ∧
      (sha256fn a.chunks.flatten = expected.getD "" →
        o.result = .ok ⟨destPath, sha256fn a.chunks.flatten, sumLens a.chunks⟩ ∧
        fsLookup o.fs destPath = some a.chunks.flatten ∧
        fsLookup o.fs (destPath ++ ".download") = none) := by
  rw [downloadToFile_resolved sha256fn server fuel url destPath expected fs0 a hreq]
  rw [processResponse_finished sha256fn a destPath expected _ hend]
  have htmp := destPath_ne_tmpPath destPath
  have htmp' : ¬ (destPath ++ ".download") = destPath := fun h => htmp h.symm
  refine ⟨_, rfl, ?_, ?_⟩
  · intro hmis
    rw [if_pos ⟨hsupplied, hmis⟩]
    refine ⟨rfl, ?_, ?_⟩
    · rw [fsLookup_fsRemove, if_pos rfl]
    · rw [fsLookup_fsRemove, if_neg htmp, fsLookup_fsWrite, if_neg htmp]
      split
      · rw [fsLookup_fsRemove, if_neg htmp]
      · rfl
  · intro hmatch
    have hcond : ¬ (strTruthy expected = true ∧ sha256fn a.chunks.flatten ≠ expected.getD "") := by
      intro hc
      exact hc.2 hmatch
    rw [if_neg hcond]
    refine ⟨rfl, ?_, ?_⟩
    · rw [fsLookup_fsWrite, if_pos rfl]
    · rw [fsLookup_fsWrite, if_neg htmp', fsLookup_fsRemove, if_pos rfl]

/-- Hash function used by witnesses and counterexamples (the abstract
`sha256fn` parameter instantiated concretely). -/
def witSha : Bytes → String := fun bs => "h" ++ toString bs.length

/-- A server whose single answer carries one 1-byte body with a declared
total of 1 byte. -/
def oneByteServer : String → HttpAnswer :=
  fun _ => ⟨200, none, some "1", [[7]], .finished⟩

/-- Witness for C2 at a concrete mismatching download. -/
theorem C2_digest_enforcement_witness :
    ∃ o, downloadToFile witSha oneByteServer 1 "http://u/m" "/models/m.pth"
        (some "deadbeef") [] = some o ∧
      (witSha [7] ≠ "deadbeef" →
        o.result = .error ("SHA256 mismatch. Expected " ++ "deadbeef" ++ ", got " ++ witSha [7]) ∧
        fsLookup o.fs ("/models/m.pth" ++ ".download") = none ∧
        fsLookup o.fs "/models/m.pth" = fsLookup [] "/models/m.pth") ∧
      (witSha [7] = "deadbeef" →
        o.result = .ok ⟨"/models/m.pth", witSha [7], sumLens [[7]]⟩ ∧
        fsLookup o.fs "/models/m.pth" = some [7] ∧
        fsLookup o.fs ("/models/m.pth" ++ ".download") = none) := by
  have h := C2_digest_enforcement witSha oneByteServer 1 "http://u/m" "/models/m.pth"
    (some "deadbeef") [] ⟨200, none, some "1", [[7]], .finished⟩ rfl rfl rfl
  simpa using h

/-- C3 counterexample. The claim says a value is emitted only when the
integer percent changes (de-duplicated). But on success `downloadToFile`
emits an unconditional final 100 after the rename, and when the last chunk
already brought the de-duplicated stream to 100 the full emitted sequence
ends `..., 100, 100` — two consecutive equal values. Concrete input: a
1-byte body with `Content-Length: 1` and no expected digest; the emitted
sequence is `[100, 100]`. -/
theorem C3_progress_dedup_counterexample :
    (downloadToFile witSha oneByteServer 1 "http://u/m" "/models/m.pth" none
        []).map DlOutcome.events = some [100, 100] ∧
      ¬ List.Chain' (fun x y => x ≠ y) [100, 100] := by
  constructor
  · rfl
  · simp [List.chain'_cons]

/-- C3 (amended). For a single `downloadToFile` call on a cleanly finished
response stream (with the received size within the declared total, as the
HTTP layer guarantees): the full emitted percent sequence is non-decreasing
and on success ends at exactly 100; the streaming-phase values follow
`percentOf` over the cumulative byte counts (`streamEvents` = the floored
ratio when a total is declared, the synthetic approximation capped at 99
otherwise) and are de-duplicated — only the unconditional terminal 100 may
repeat an already-emitted 100; on a digest mismatch no event follows the
streaming phase. -/
theorem C3_progress_monotonic_amended (sha256fn : Bytes → String)
    (server : String → HttpAnswer) (fuel : Nat) (url destPath : String)
    (expected : Option String) (fs0 : FS) (a : HttpAnswer)
    (hreq : requestStream server fuel url = some (.ok a))
    (hend : a.streamEnd = .finished)
    (htot : hasTotalOf a = true → sumLens a.chunks ≤ totalOf a) :
    ∃ o, downloadToFile sha256fn server fuel url destPath expected fs0 = some o ∧
      ((strTruthy expected = false ∨ sha256fn a.chunks.flatten = expected.getD "") →
        o.events = streamEvents a ++ [100] ∧
        o.events.getLast? = some 100 ∧
        o.events.Chain' (· ≤ ·)) ∧
      ((strTruthy expected = true ∧ sha256fn a.chunks.flatten ≠ expected.getD "") →
        o.events = streamEvents a) ∧
      (streamEvents a).Chain' (fun x y => x ≠ y) ∧
      (streamEvents a).Chain' (· ≤ ·) ∧
      (∀ p ∈ streamEvents a, p ≤ 100) ∧
      (hasTotalOf a = false → ∀ p ∈ streamEvents a, p ≤ 99) := by
  rw [downloadToFile_resolved sha256fn server fuel url destPath expected fs0 a hreq]
  rw [processResponse_finished sha256fn a destPath expected _ hend]
  have hbound := streamEvents_bound a htot
  refine ⟨_, rfl, ?_, ?_, streamEvents_chain_ne a, ?_, hbound.1, hbound.2⟩
  · intro hok
    have hcond : ¬ (strTruthy expected = true ∧ sha256fn a.chunks.flatten ≠ expected.getD "") := by
      rcases hok with hfalse | hmatch
      · intro hc; rw [hc.1] at hfalse; exact absurd hfalse (by simp)
      · intro hc; exact hc.2 hmatch
    rw [if_neg hcond]
    refine ⟨rfl, ?_, ?_⟩
    · simp
    · exact chain_le_append_100 _ (streamEvents_pairwise a) hbound.1
  · intro hmis
    rw [if_pos hmis]
  · rw [List.chain'_iff_pairwise]
    exact streamEvents_pairwise a

/-- A server answering with a declared 4-byte total delivered in three
chunks (1, 1 and 2 bytes), so the percents are 25, 50 and 100. -/
def threeChunkServer : String → HttpAnswer :=
  fun _ => ⟨200, none, some "4", [[1], [2], [3, 4]], .finished⟩

/-- Witness for the amended C3 at a concrete successful download. -/
theorem C3_progress_monotonic_amended_witness :
    (∃ o, downloadToFile witSha threeChunkServer 1 "http://u/m" "/models/m.pth" none
        [] = some o ∧
      ((strTruthy none = false ∨ witSha [1, 2, 3, 4] = Option.getD none "") →
        o.events = streamEvents ⟨200, none, some "4", [[1], [2], [3, 4]], .finished⟩ ++ [100] ∧
        o.events.getLast? = some 100 ∧
        o.events.Chain' (· ≤ ·)) ∧
      ((strTruthy none = true ∧ witSha [1, 2, 3, 4] ≠ Option.getD none "") →
        o.events = streamEvents ⟨200, none, some "4", [[1], [2], [3, 4]], .finished⟩) ∧
      (streamEvents ⟨200, none, some "4", [[1], [2], [3, 4]], .finished⟩).Chain' (fun x y => x ≠ y) ∧
      (streamEvents ⟨200, none, some "4", [[1], [2], [3, 4]], .finished⟩).Chain' (· ≤ ·) ∧
      (∀ p ∈ streamEvents ⟨200, none, some "4", [[1], [2], [3, 4]], .finished⟩, p ≤ 100) ∧
      (hasTotalOf ⟨200, none, some "4", [[1], [2], [3, 4]], .finished⟩ = false →
        ∀ p ∈ streamEvents ⟨200, none, some "4", [[1], [2], [3, 4]], .finished⟩, p ≤ 99)) ∧
      streamEvents ⟨200, none, some "4", [[1], [2], [3, 4]], .finished⟩ = [25, 50, 100] :=
  ⟨C3_progress_monotonic_amended witSha threeChunkServer 1 "http://u/m" "/models/m.pth" none
    [] ⟨200, none, some "4", [[1], [2], [3, 4]], .finished⟩ rfl rfl (by intro h; decide), by decide⟩

/-! ### Manifest, registry and the model downloader
(scripts/model-utils.js and scripts/download-models.js) -/

/-- Model of `normalizeSha256(checksum)`: falsy input gives null, the
trimmed text gives null when empty, and a `sha256:` prefix is stripped. -/
def normalizeSha256 (checksum : Option String) : Option String :=
  match checksum with
  | none => none
  | some c =>
    if c = "" then none
    else
      let text := jsTrim c
      if text = "" then none
      else if strStartsWith text "sha256:" then some (strDropChars text "sha256:".length)
      else some text

/-- Model of `isPlaceholderUrl(url)`. -/
def isPlaceholderUrl (url : Option String) : Bool :=
  match url with
  | none => true
  | some u =>
    if u = "" then true
    else strContainsSub u "example.com" || strContainsSub u "YOUR_SERVER" || strContainsSub u "your-server"

/-- One entry of `models-data/manifest.json`. -/
structure ManifestEntry where
  name : Option String
  url : Option String
  filename : Option String
  version : Option String
  checksum : Option String
  required : Bool
deriving DecidableEq

/-- The manifest: insertion-ordered map from model key to entry. -/
structure Manifest where
  models : List (String × ManifestEntry)
deriving DecidableEq

/-- One persisted entry of the registry (`models.json`). -/
structure RegEntry where
  key : String
  name : String
  filename : String
  version : Option String
  sha256 : String
  bytes : Nat
  downloadedAt : String
deriving DecidableEq

/-- The registry document: insertion-ordered map from model key to entry. -/
structure Registry where
  models : List (String × RegEntry)
deriving DecidableEq

/-- Outcome of `downloadModel`: final filesystem and registry, the
progress percents passed to the per-model callback, and the settlement. -/
structure DmOk where
  modelKey : String
  path : String
  sha256 : String
deriving DecidableEq

structure DmOutcome where
  fs : FS
  registry : Registry
  events : List Nat
  result : Except String DmOk
deriving DecidableEq

/-- Model of `downloadModel(modelKey, onProgress, options)` from
scripts/download-models.js: look the key up in the manifest, refuse
placeholder URLs, download to `<modelsDir>/<filename>` with the normalized
expected digest, then upsert the registry entry (actual digest, actual
byte count, current timestamp `now`) and persist the registry. `none`
means the redirect recursion never settled within `fuel`. -/
def downloadModel (sha256fn : Bytes → String) (server : String → HttpAnswer) (fuel : Nat)
    (manifest : Manifest) (modelsDir now : String) (fs0 : FS) (reg0 : Registry)
    (modelKey : String) : Option DmOutcome :=
  match lookupAssoc manifest.models modelKey with
  | none =>
    some ⟨fs0, reg0, [], .error ("Unknown model " ++ modelKey ++ ". Check models-data/manifest.json")⟩
  | some entry =>
    if isPlaceholderUrl entry.url then
      some ⟨fs0, reg0, [],
        .error ("URL for model " ++ modelKey ++ " is not configured (manifest contains a placeholder)")⟩
    else
      let filename := jsOrStr entry.filename (modelKey ++ ".pth")
      let destPath := modelsDir ++ "/" ++ filename
      let expectedSha256 := normalizeSha256 entry.checksum
      match downloadToFile sha256fn server fuel (jsOrStr entry.url "") destPath expectedSha256 fs0 with
      | none => none
      | some dl =>
        match dl.result with
        | .error e => some ⟨dl.fs, reg0, dl.events, .error e⟩
        | .ok r =>
          let newEntry : RegEntry :=
            ⟨modelKey, jsOrStr entry.name modelKey, filename,
              (if strTruthy entry.version then entry.version else none),
              r.sha256, r.bytes, now⟩
          some ⟨dl.fs, ⟨setAssoc reg0.models modelKey newEntry⟩, dl.events,
            .ok ⟨modelKey, r.destPath, r.sha256⟩⟩

/-- Outcome of `downloadMany`: the per-model progress events are tagged
with the model key; on settlement, either the list of updated keys or the
first error, which rejects the whole batch. -/
structure ManyOutcome where
  fs : FS
  registry : Registry
  events : List (String × Nat)
  result : Except String (List String)
deriving DecidableEq

/-- Model of `downloadMany({keys, modelsDir, onModelProgress})`: download
the keys strictly in order, one at a time, `await`-ing each; a rejection
of any `downloadModel` call propagates immediately and aborts the loop. -/
def downloadMany (sha256fn : Bytes → String) (server : String → HttpAnswer) (fuel : Nat)
    (manifest : Manifest) (modelsDir now : String) (fs0 : FS) (reg0 : Registry) :
    List String → Option ManyOutcome
  | [] => some ⟨fs0, reg0, [], .ok []⟩
  | key :: keys =>
    match downloadModel sha256fn server fuel manifest modelsDir now fs0 reg0 key with
    | none => none
    | some dm =>
      match dm.result with
      | .error e => some ⟨dm.fs, dm.registry, dm.events.map (fun p => (key, p)), .error e⟩
      | .ok _ =>
        match downloadMany sha256fn server fuel manifest modelsDir now dm.fs dm.registry keys with
        | none => none
        | some rest =>
          some ⟨rest.fs, rest.registry,
            dm.events.map (fun p => (key, p)) ++ rest.events,
            rest.result.map (fun updated => key :: updated)⟩

theorem lookupAssoc_setAssoc_self {β : Type} (l : List (String × β)) (k : String) (v : β) :
    lookupAssoc (setAssoc l k v) k = some v := by
  simp [setAssoc, lookupAssoc_append, lookupAssoc_removeAssoc, lookupAssoc]

/-- A `downloadModel` call that settles with an error leaves the registry
exactly as it was (the registry write happens only after a resolved
download). -/
theorem downloadModel_error_registry (sha256fn : Bytes → String) (server : String → HttpAnswer)
    (fuel : Nat) (manifest : Manifest) (modelsDir now : String) (fs0 : FS) (reg0 : Registry)
    (modelKey : String) (dm : DmOutcome) (e : String)
    (h : downloadModel sha256fn server fuel manifest modelsDir now fs0 reg0 modelKey = some dm)
    (he : dm.result = .error e) : dm.registry = reg0 := by
  simp only [downloadModel] at h
  split at h
  · obtain rfl := Option.some.inj h
    rfl
  · split at h
    · obtain rfl := Option.some.inj h
      rfl
    · split at h
      · exact absurd h (by simp)
      · split at h
        · obtain rfl := Option.some.inj h
          rfl
        · obtain rfl := Option.some.inj h
          exact absurd he (by simp)

/-- C1 (amended). In `downloadMany`, tasks are processed strictly in
order, but a failure of an earlier task rejects the whole batch: the
rejection of `downloadModel` for the first key propagates out of the
`await`, the remaining keys are never attempted, no registry entry is
written for them (the registry is exactly as the failing call left it,
i.e. unchanged), and the error reaches the caller as a rejection — not as
a progress-callback event (the emitted events are exactly those of the
failing task). -/
theorem C1_failure_blocks_rest_amended (sha256fn : Bytes → String)
    (server : String → HttpAnswer) (fuel : Nat) (manifest : Manifest)
    (modelsDir now : String) (fs0 : FS) (reg0 : Registry) (key : String)
    (keys : List String) (dm : DmOutcome) (e : String)
    (h : downloadModel sha256fn server fuel manifest modelsDir now fs0 reg0 key = some dm)
    (he : dm.result = .error e) :
    ∃ out, downloadMany sha256fn server fuel manifest modelsDir now fs0 reg0 (key :: keys)
        = some out ∧
      out.result = .error e ∧
      out.registry = reg0 ∧
      out.events = dm.events.map (fun p => (key, p)) ∧
      out.fs = dm.fs := by
  refine ⟨⟨dm.fs, dm.registry, dm.events.map (fun p => (key, p)), .error e⟩, ?_, rfl, ?_, rfl, rfl⟩
  · simp only [downloadMany, h, he]
  · exact downloadModel_error_registry sha256fn server fuel manifest modelsDir now fs0 reg0
      key dm e h he

/-- Manifest for the C1 scenario: model `a` points at a URL the server
rejects with 404, model `b` at a URL the server serves. -/
def c1Manifest : Manifest :=
  ⟨[("a", ⟨none, some "http://srv/a", some "a.bin", some "1.0", none, true⟩),
    ("b", ⟨none, some "http://srv/b", some "b.bin", some "1.0", none, true⟩)]⟩

/-- Server for the C1 scenario: 404 for model `a`, a 1-byte 200 for
everything else. -/
def c1Server : String → HttpAnswer :=
  fun u =>
    if u = "http://srv/a" then ⟨404, none, none, [], .finished⟩
    else ⟨200, none, some "1", [[9]], .finished⟩

/-- C1 counterexample. With tasks A (fails with HTTP 404) then B (succeeds
when run on its own) enqueued together, `downloadMany` rejects with the
first error: B is never downloaded, B gets no registry entry and no
progress event, and the error is not delivered through the progress
callback — refuting the claim that B still completes and its registry
entry is written. -/
theorem C1_queue_isolation_counterexample :
    (∃ dmB, downloadModel witSha c1Server 1 c1Manifest "/md" "t0" [] ⟨[]⟩ "b" = some dmB ∧
      dmB.result = .ok ⟨"b", "/md/b.bin", witSha [9]⟩ ∧
      (lookupAssoc dmB.registry.models "b").isSome = true) ∧
    (∃ out, downloadMany witSha c1Server 1 c1Manifest "/md" "t0" [] ⟨[]⟩ ["a", "b"] = some out ∧
      out.result = .error "HTTP 404 for http://srv/a" ∧
      lookupAssoc out.registry.models "b" = none ∧
      out.events = [] ∧
      fsLookup out.fs "/md/b.bin" = none) := by
  constructor
  · exact ⟨_, rfl, rfl, rfl⟩
  · exact ⟨_, rfl, rfl, rfl, rfl, rfl⟩

/-- Witness for the amended C1 at the concrete two-task scenario. -/
theorem C1_failure_blocks_rest_witness :
    ∃ out, downloadMany witSha c1Server 1 c1Manifest "/md" "t0" [] ⟨[]⟩ ["a", "b"]
        = some out ∧
      out.result = .error "HTTP 404 for http://srv/a" ∧
      out.registry = ⟨[]⟩ ∧
      out.events = List.map (fun p => ("a", p)) [] ∧
      out.fs = [] :=
  C1_failure_blocks_rest_amended witSha c1Server 1 c1Manifest "/md" "t0" [] ⟨[]⟩ "a" ["b"]
    ⟨[], ⟨[]⟩, [], .error "HTTP 404 for http://srv/a"⟩ "HTTP 404 for http://srv/a" rfl rfl

/-- An unusable checksum field (absent, empty, whitespace-only, or exactly
the `sha256:` prefix) normalizes to a falsy value — `null` in the first
three cases, the empty string in the fourth. -/
theorem normalizeSha256_unusable (c : Option String)
    (h : c = none ∨ c = some "" ∨ (∃ s, c = some s ∧ jsTrim s = "") ∨ c = some "sha256:") :
    strTruthy (normalizeSha256 c) = false := by
  rcases h with rfl | rfl | ⟨s, rfl, hs⟩ | rfl
  · rfl
  · rfl
  · unfold normalizeSha256
    by_cases h0 : s = ""
    · simp [h0, strTruthy]
    · simp [h0, hs, strTruthy]
  · rfl

/-- C10 counterexample. The claim says a checksum consisting only of the
`sha256:` prefix makes `normalizeSha256` yield null; in fact it yields the
empty string (the prefix is stripped after the non-empty trim check). -/
theorem C10_normalize_counterexample :
    normalizeSha256 (some "sha256:") = some "" ∧ some "" ≠ (none : Option String) := by
  exact ⟨rfl, by simp⟩

/-- C10 (amended). For every `downloadModel` call whose manifest entry
carries no usable checksum (absent, empty, whitespace-only, or consisting
only of the `sha256:` prefix), the normalized digest is falsy — null in
the first three cases and the empty string in the prefix-only case — so
`downloadToFile` performs no integrity verification at all; the download
nevertheless succeeds and a registry entry is written recording the
SHA-256 and byte count actually computed from the received stream. -/
theorem C10_unverified_download_registered_amended (sha256fn : Bytes → String)
    (server : String → HttpAnswer) (fuel : Nat) (manifest : Manifest)
    (modelsDir now : String) (fs0 : FS) (reg0 : Registry) (modelKey : String)
    (entry : ManifestEntry) (a : HttpAnswer)
    (hentry : lookupAssoc manifest.models modelKey = some entry)
    (hurl : isPlaceholderUrl entry.url = false)
    (hchk : entry.checksum = none ∨ entry.checksum = some "" ∨
      (∃ s, entry.checksum = some s ∧ jsTrim s = "") ∨ entry.checksum = some "sha256:")
    (hreq : requestStream server fuel (jsOrStr entry.url "") = some (.ok a))
    (hend : a.streamEnd = .finished) :
    ∃ dm, downloadModel sha256fn server fuel manifest modelsDir now fs0 reg0 modelKey
        = some dm ∧
      dm.result = .ok ⟨modelKey, modelsDir ++ "/" ++ jsOrStr entry.filename (modelKey ++ ".pth"),
        sha256fn a.chunks.flatten⟩ ∧
      lookupAssoc dm.registry.models modelKey = some
        ⟨modelKey, jsOrStr entry.name modelKey, jsOrStr entry.filename (modelKey ++ ".pth"),
          (if strTruthy entry.version then entry.version else none),
          sha256fn a.chunks.flatten, sumLens a.chunks, now⟩ := by
  have hfalsy := normalizeSha256_unusable entry.checksum hchk
  simp only [downloadModel, hentry, hurl, Bool.false_eq_true, if_false]
  rw [downloadToFile_resolved sha256fn server fuel (jsOrStr entry.url "")
    (modelsDir ++ "/" ++ jsOrStr entry.filename (modelKey ++ ".pth"))
    (normalizeSha256 entry.checksum) fs0 a hreq]
  rw [processResponse_finished sha256fn a _ _ _ hend]
  have hcond : ¬ (strTruthy (normalizeSha256 entry.checksum) = true ∧
      sha256fn a.chunks.flatten ≠ (normalizeSha256 entry.checksum).getD "") := by
    intro hc
    rw [hfalsy] at hc
    exact absurd hc.1 (by simp)
  rw [if_neg hcond]
  exact ⟨_, rfl, rfl, lookupAssoc_setAssoc_self _ _ _⟩

/-- Manifest for the C10 witness: the single model carries a checksum that
is only the `sha256:` prefix. -/
def c10Manifest : Manifest :=
  ⟨[("m", ⟨some "Model M", some "http://srv/m", some "m.bin", some "2.1", some "sha256:", false⟩)]⟩

/-- Witness for the amended C10 at a concrete prefix-only checksum. -/
theorem C10_unverified_download_registered_witness :
    ∃ dm, downloadModel witSha oneByteServer 1 c10Manifest "/md" "t1" [] ⟨[]⟩ "m"
        = some dm ∧
      dm.result = .ok ⟨"m", "/md" ++ "/" ++ jsOrStr (some "m.bin") ("m" ++ ".pth"),
        witSha (List.flatten [[7]])⟩ ∧
      lookupAssoc dm.registry.models "m" = some
        ⟨"m", jsOrStr (some "Model M") "m", jsOrStr (some "m.bin") ("m" ++ ".pth"),
          (if strTruthy (some "2.1") then some "2.1" else none),
          witSha (List.flatten [[7]]), sumLens [[7]], "t1"⟩ :=
  C10_unverified_download_registered_amended witSha oneByteServer 1 c10Manifest "/md" "t1"
    [] ⟨[]⟩ "m" ⟨some "Model M", some "http://srv/m", some "m.bin", some "2.1", some "sha256:", false⟩
    ⟨200, none, some "1", [[7]], .finished⟩ rfl rfl (Or.inr (Or.inr (Or.inr rfl))) rfl rfl

/-! ### Job client: `pollJobUntilFinal` (frontend/src/api-client.js) -/

/-- The fixed success-like terminal status set. -/
def FINAL_SUCCESS_STATES : List String := ["success", "done"]

/-- The fixed failure-like terminal status set. -/
def FINAL_FAILURE_STATES : List String := ["failure", "failed", "error"]

/-- The `result` object of one status response (`statusPayload?.result || {}`):
`status` (absent defaults to "pending"), `progress` (`none` models an
absent/non-finite value), the truthiness of `is_final`, the `error` field,
and `poll_after_ms` (`none` models an absent/unparsable value). -/
structure Backend where
  status : Option String
  progress : Option Int
  is_final : Bool
  error : Option String
  poll_after_ms : Option Int
deriving DecidableEq

/-- The normalized argument of one `onProgress` invocation. -/
structure ProgEvent where
  status : String
  progress : Int
  payload : Backend
deriving DecidableEq

/-- How `pollJobUntilFinal` settles. `.timeout` carries no payload — the
source resolves `{final: "timeout", payload: null}`. `.thrown` models a
rejection of `getJobStatus` propagating out of the loop. -/
inductive PollFinal where
  | success (payload : Backend)
  | failure (payload : Backend)
  | timeout
  | thrown (msg : String)
deriving DecidableEq

/-- Observable outcome of a polling run: the `onProgress` invocations in
order, the waits performed before each fetch, the number of status
fetches, and the settlement. -/
structure PollResult where
  events : List ProgEvent
  waits : List Int
  fetches : Nat
  final : PollFinal
deriving DecidableEq

/-- The normalized lower-cased status of one response. -/
def normStatus (b : Backend) : String :=
  jsToLower (jsOrStr b.status "pending")

/-- The interval adopted for the next wait: a parsed non-negative
`poll_after_ms` hint replaces the current interval. -/
def nextInterval (b : Backend) (intervalMs : Int) : Int :=
  match b.poll_after_ms with
  | some p => if 0 ≤ p then p else intervalMs
  | none => intervalMs

/-- The polling loop from attempt index `idx` with `remaining` attempts
left: wait, fetch, invoke `onProgress` with the normalized snapshot, then
decide in source order — `is_final` without error, `is_final` with error,
success set, failure set, else adopt a non-negative `poll_after_ms` as the
next interval and continue. -/
def pollFrom (responses : Nat → Except String Backend) (idx : Nat) (intervalMs : Int) :
    Nat → PollResult
  | 0 => ⟨[], [], 0, .timeout⟩
  | remaining + 1 =>
    match responses idx with
    | .error e => ⟨[], [intervalMs], 1, .thrown e⟩
    | .ok b =>
      let ev : ProgEvent := ⟨normStatus b, b.progress.getD 0, b⟩
      if b.is_final = true ∧ strTruthy b.error = false then
        ⟨[ev], [intervalMs], 1, .success b⟩
      else if b.is_final = true ∧ strTruthy b.error = true then
        ⟨[ev], [intervalMs], 1, .failure b⟩
      else if normStatus b ∈ FINAL_SUCCESS_STATES then
        ⟨[ev], [intervalMs], 1, .success b⟩
      else if normStatus b ∈ FINAL_FAILURE_STATES then
        ⟨[ev], [intervalMs], 1, .failure b⟩
      else
        let rest := pollFrom responses (idx + 1) (nextInterval b intervalMs) remaining
        ⟨ev :: rest.events, intervalMs :: rest.waits, rest.fetches + 1, rest.final⟩

/-- Model of `pollJobUntilFinal(taskId, {maxAttempts, intervalMs,
onProgress})`: run the loop `while (attempts < maxAttempts)` from attempt
0; if no iteration terminates, resolve timeout. -/
def pollJobUntilFinal (responses : Nat → Except String Backend) (maxAttempts : Nat)
    (intervalMs : Int) : PollResult :=
  pollFrom responses 0 intervalMs maxAttempts

/-- A response is non-terminal when it parses, is not `is_final`, and its
normalized status is in neither terminal set. -/
def NonTerminal (r : Except String Backend) : Prop :=
  ∃ b, r = .ok b ∧ b.is_final = false ∧
    normStatus b ∉ FINAL_SUCCESS_STATES ∧ normStatus b ∉ FINAL_FAILURE_STATES

/-- Auxiliary: a run over only non-terminal responses exhausts all its
attempts, fetching once and reporting progress once per attempt, and times
out. -/
theorem pollFrom_all_nonterminal (responses : Nat → Except String Backend)
    (remaining : Nat) :
    ∀ idx intervalMs,
      (∀ n, idx ≤ n → n < idx + remaining → NonTerminal (responses n)) →
      (pollFrom responses idx intervalMs remaining).final = .timeout ∧
        (pollFrom responses idx intervalMs remaining).fetches = remaining ∧
        (pollFrom responses idx intervalMs remaining).events.length = remaining := by
  induction remaining with
  | zero => intro idx intervalMs _; exact ⟨rfl, rfl, rfl⟩
  | succ r ih =>
    intro idx intervalMs hall
    obtain ⟨b, hb, hfin, hsucc, hfail⟩ := hall idx (le_refl idx) (by omega)
    have hc1 : ¬ (b.is_final = true ∧ strTruthy b.error = false) := by
      intro hc; rw [hfin] at hc; exact absurd hc.1 (by simp)
    have hc2 : ¬ (b.is_final = true ∧ strTruthy b.error = true) := by
      intro hc; rw [hfin] at hc; exact absurd hc.1 (by simp)
    have hrest := ih (idx + 1) (nextInterval b intervalMs)
      (fun n h1 h2 => hall n (by omega) (by omega))
    simp only [pollFrom, hb, if_neg hc1, if_neg hc2, if_neg hsucc, if_neg hfail]
    refine ⟨hrest.1, ?_, ?_⟩
    · rw [hrest.2.1]
    · simp only [List.length_cons]
      rw [hrest.2.2]

/-- C4. Polling timeout exactness: if no response within the attempt
budget is terminal (never `is_final`, normalized status never in the
success or failure sets), `pollJobUntilFinal` performs exactly
`maxAttempts` status fetches (invoking `onProgress` each time) and then
resolves timeout — `{final: "timeout", payload: null}` in the source, a
settlement distinct from every failure result. -/
theorem C4_poll_timeout_exact (responses : Nat → Except String Backend)
    (maxAttempts : Nat) (intervalMs : Int)
    (hall : ∀ n, n < maxAttempts → NonTerminal (responses n)) :
    (pollJobUntilFinal responses maxAttempts intervalMs).final = .timeout ∧
      (pollJobUntilFinal responses maxAttempts intervalMs).fetches = maxAttempts ∧
      (pollJobUntilFinal responses maxAttempts intervalMs).events.length = maxAttempts ∧
      ∀ b, (pollJobUntilFinal responses maxAttempts intervalMs).final ≠ .failure b := by
  have h := pollFrom_all_nonterminal responses maxAttempts 0 intervalMs
    (fun n h1 h2 => hall n (by omega))
  simp only [pollJobUntilFinal]
  refine ⟨h.1, h.2.1, h.2.2, ?_⟩
  intro b hb
  rw [h.1] at hb
  exact absurd hb (by simp)

/-- A status response that never terminates: `pending`, not final. -/
def pendingBackend : Backend := ⟨some "pending", some 10, false, none, none⟩

/-- Witness for C4: three pending responses, three fetches, timeout. -/
theorem C4_poll_timeout_exact_witness :
    (pollJobUntilFinal (fun _ => .ok pendingBackend) 3 600).final = .timeout ∧
      (pollJobUntilFinal (fun _ => .ok pendingBackend) 3 600).fetches = 3 ∧
      (pollJobUntilFinal (fun _ => .ok pendingBackend) 3 600).events.length = 3 ∧
      ∀ b, (pollJobUntilFinal (fun _ => .ok pendingBackend) 3 600).final ≠ .failure b :=
  C4_poll_timeout_exact (fun _ => .ok pendingBackend) 3 600
    (fun n _ => ⟨pendingBackend, rfl, rfl, by decide, by decide⟩)

/-- One non-terminal iteration: emit the normalized snapshot and continue
on the adapted interval. -/
theorem pollFrom_step_nonterminal (responses : Nat → Except String Backend)
    (idx : Nat) (intervalMs : Int) (r : Nat) (b : Backend)
    (hb : responses idx = .ok b) (hfin : b.is_final = false)
    (hs : normStatus b ∉ FINAL_SUCCESS_STATES) (hf : normStatus b ∉ FINAL_FAILURE_STATES) :
    pollFrom responses idx intervalMs (r + 1) =
      ⟨⟨normStatus b, b.progress.getD 0, b⟩ ::
          (pollFrom responses (idx + 1) (nextInterval b intervalMs) r).events,
        intervalMs :: (pollFrom responses (idx + 1) (nextInterval b intervalMs) r).waits,
        (pollFrom responses (idx + 1) (nextInterval b intervalMs) r).fetches + 1,
        (pollFrom responses (idx + 1) (nextInterval b intervalMs) r).final⟩ := by
  have hc1 : ¬ (b.is_final = true ∧ strTruthy b.error = false) := by
    intro hc; rw [hfin] at hc; exact absurd hc.1 (by simp)
  have hc2 : ¬ (b.is_final = true ∧ strTruthy b.error = true) := by
    intro hc; rw [hfin] at hc; exact absurd hc.1 (by simp)
  simp only [pollFrom, hb, if_neg hc1, if_neg hc2, if_neg hs, if_neg hf]

/-- One `is_final` iteration without a truthy error: resolve success. -/
theorem pollFrom_step_final_success (responses : Nat → Except String Backend)
    (idx : Nat) (intervalMs : Int) (r : Nat) (b : Backend)
    (hb : responses idx = .ok b) (hfin : b.is_final = true)
    (herr : strTruthy b.error = false) :
    pollFrom responses idx intervalMs (r + 1) =
      ⟨[⟨normStatus b, b.progress.getD 0, b⟩], [intervalMs], 1, .success b⟩ := by
  simp only [pollFrom, hb, if_pos (And.intro hfin herr)]

/-- C5. Termination precedence and the 3-poll scenario. Part one: on the
first poll, `onProgress` receives the lower-cased normalized snapshot, and
the decision follows the source order — (1) `is_final` without a truthy
error resolves success, (2) `is_final` with a truthy error resolves
failure, (3) otherwise a status in the success set resolves success,
(4) otherwise a status in the failure set resolves failure. Part two: a
status endpoint answering `is_final:false` twice (non-terminal statuses)
and then `is_final:true` with `error:null` resolves success after exactly
3 polls, with `onProgress` invoked exactly 3 times with the normalized
snapshots. -/
theorem C5_poll_precedence_and_scenario :
    (∀ (responses : Nat → Except String Backend) (maxAttempts : Nat) (intervalMs : Int)
        (b : Backend),
      responses 0 = .ok b → 1 ≤ maxAttempts →
      ((pollJobUntilFinal responses maxAttempts intervalMs).events.head? =
          some ⟨normStatus b, b.progress.getD 0, b⟩) ∧
      (b.is_final = true → strTruthy b.error = false →
        (pollJobUntilFinal responses maxAttempts intervalMs).final = .success b) ∧
      (b.is_final = true → strTruthy b.error = true →
        (pollJobUntilFinal responses maxAttempts intervalMs).final = .failure b) ∧
      (b.is_final = false → normStatus b ∈ FINAL_SUCCESS_STATES →
        (pollJobUntilFinal responses maxAttempts intervalMs).final = .success b) ∧
      (b.is_final = false → normStatus b ∉ FINAL_SUCCESS_STATES →
        normStatus b ∈ FINAL_FAILURE_STATES →
        (pollJobUntilFinal responses maxAttempts intervalMs).final = .failure b)) ∧
    (∀ (responses : Nat → Except String Backend) (maxAttempts : Nat) (intervalMs : Int)
        (b0 b1 b2 : Backend),
      responses 0 = .ok b0 → responses 1 = .ok b1 → responses 2 = .ok b2 →
      b0.is_final = false → normStatus b0 ∉ FINAL_SUCCESS_STATES →
      normStatus b0 ∉ FINAL_FAILURE_STATES →
      b1.is_final = false → normStatus b1 ∉ FINAL_SUCCESS_STATES →
      normStatus b1 ∉ FINAL_FAILURE_STATES →
      b2.is_final = true → b2.error = none → 3 ≤ maxAttempts →
      (pollJobUntilFinal responses maxAttempts intervalMs).final = .success b2 ∧
      (pollJobUntilFinal responses maxAttempts intervalMs).fetches = 3 ∧
      (pollJobUntilFinal responses maxAttempts intervalMs).events =
        [⟨normStatus b0, b0.progress.getD 0, b0⟩, ⟨normStatus b1, b1.progress.getD 0, b1⟩,
          ⟨normStatus b2, b2.progress.getD 0, b2⟩]) := by
  constructor
  · intro responses maxAttempts intervalMs b hb hmax
    obtain ⟨m, rfl⟩ : ∃ m, maxAttempts = m + 1 := ⟨maxAttempts - 1, by omega⟩
    refine ⟨?_, ?_, ?_, ?_, ?_⟩
    · simp only [pollJobUntilFinal, pollFrom, hb]
      split
      · rfl
      · split
        · rfl
        · split
          · rfl
          · split
            · rfl
            · rfl
    · intro hfin herr
      rw [pollJobUntilFinal, pollFrom_step_final_success responses 0 intervalMs m b hb hfin herr]
    · intro hfin herr
      have hc1 : ¬ (b.is_final = true ∧ strTruthy b.error = false) := by
        intro hc; rw [herr] at hc; exact absurd hc.2 (by simp)
      simp only [pollJobUntilFinal, pollFrom, hb, if_neg hc1, if_pos (And.intro hfin herr)]
    · intro hfin hs
      have hc1 : ¬ (b.is_final = true ∧ strTruthy b.error = false) := by
        intro hc; rw [hfin] at hc; exact absurd hc.1 (by simp)
      have hc2 : ¬ (b.is_final = true ∧ strTruthy b.error = true) := by
        intro hc; rw [hfin] at hc; exact absurd hc.1 (by simp)
      simp only [pollJobUntilFinal, pollFrom, hb, if_neg hc1, if_neg hc2, if_pos hs]
    · intro hfin hs hf
      have hc1 : ¬ (b.is_final = true ∧ strTruthy b.error = false) := by
        intro hc; rw [hfin] at hc; exact absurd hc.1 (by simp)
      have hc2 : ¬ (b.is_final = true ∧ strTruthy b.error = true) := by
        intro hc; rw [hfin] at hc; exact absurd hc.1 (by simp)
      simp only [pollJobUntilFinal, pollFrom, hb, if_neg hc1, if_neg hc2, if_neg hs, if_pos hf]
  · intro responses maxAttempts intervalMs b0 b1 b2 h0 h1 h2 h0fin h0s h0f h1fin h1s h1f
      h2fin h2err hmax
    obtain ⟨k, rfl⟩ : ∃ k, maxAttempts = k + 3 := ⟨maxAttempts - 3, by omega⟩
    have h1' : responses (0 + 1) = .ok b1 := by simpa using h1
    have h2' : responses (0 + 1 + 1) = .ok b2 := by simpa using h2
    have herr2 : strTruthy b2.error = false := by rw [h2err]; rfl
    rw [pollJobUntilFinal,
      show k + 3 = (k + 1 + 1) + 1 by omega,
      pollFrom_step_nonterminal responses 0 intervalMs (k + 1 + 1) b0 h0 h0fin h0s h0f,
      pollFrom_step_nonterminal responses (0 + 1) (nextInterval b0 intervalMs) (k + 1) b1
        h1' h1fin h1s h1f,
      pollFrom_step_final_success responses (0 + 1 + 1)
        (nextInterval b1 (nextInterval b0 intervalMs)) k b2 h2' h2fin herr2]
    exact ⟨rfl, rfl, rfl⟩

/-- A terminal response: `done`, final, no error. -/
def doneBackend : Backend := ⟨some "done", some 100, true, none, some 0⟩

/-- The C5 scenario endpoint: pending twice, then final without error. -/
def c5Responses : Nat → Except String Backend :=
  fun n => if n ≤ 1 then .ok pendingBackend else .ok doneBackend

/-- Witness for C5: the scenario instantiated, plus the first-poll
precedence at a final response. -/
theorem C5_poll_precedence_and_scenario_witness :
    ((pollJobUntilFinal c5Responses 25 600).final = .success doneBackend ∧
      (pollJobUntilFinal c5Responses 25 600).fetches = 3 ∧
      (pollJobUntilFinal c5Responses 25 600).events =
        [⟨normStatus pendingBackend, 10, pendingBackend⟩,
          ⟨normStatus pendingBackend, 10, pendingBackend⟩,
          ⟨normStatus doneBackend, 100, doneBackend⟩]) ∧
      (pollJobUntilFinal (fun _ => .ok doneBackend) 25 600).final = .success doneBackend := by
  have hA := C5_poll_precedence_and_scenario.1 (fun _ => .ok doneBackend) 25 600 doneBackend
    rfl (by omega)
  have hB := C5_poll_precedence_and_scenario.2 c5Responses 25 600 pendingBackend
    pendingBackend doneBackend rfl rfl rfl rfl (by decide) (by decide) rfl (by decide)
    (by decide) rfl rfl (by omega)
  exact ⟨⟨hB.1, hB.2.1, hB.2.2⟩, hA.2.1 rfl rfl⟩

/-! ### Update checker (scripts/check-updates.js) -/

/-- JS `s.split('.')` on the character list: separators delimit (possibly
empty) segments; the empty string splits to one empty segment. -/
def splitOnChar (sep : Char) : List Char → List (List Char)
  | [] => [[]]
  | c :: rest =>
    let r := splitOnChar sep rest
    if c = sep then [] :: r
    else
      match r with
      | [] => [[c]]
      | h :: t => (c :: h) :: t

/-- JS `String(x).split('.')`. -/
def jsSplitDot (s : String) : List String :=
  (splitOnChar '.' s.toList).map (fun cs => ⟨cs⟩)

/-- Tail of the comparison loop when the first version ran out of
components: each remaining component of the second is compared against 0. -/
def cmpZerosLeft : List Int → Int
  | [] => 0
  | b :: bs => if (0 : Int) > b then 1 else if (0 : Int) < b then -1 else cmpZerosLeft bs

/-- Tail of the comparison loop when the second version ran out of
components: each remaining component of the first is compared against 0. -/
def cmpZerosRight : List Int → Int
  | [] => 0
  | a :: as => if a > 0 then 1 else if a < 0 then -1 else cmpZerosRight as

/-- The comparison loop of `compareVersions`: component-wise numeric
comparison, missing components treated as 0. -/
def cmpComponents : List Int → List Int → Int
  | [], bs => cmpZerosLeft bs
  | a :: as, [] => cmpZerosRight (a :: as)
  | a :: as, b :: bs =>
    if a > b then 1 else if a < b then -1 else cmpComponents as bs

/-- Model of `compareVersions(a, b)`: split `String(a || '0')` on dots,
parse each segment with `parseInt(x, 10) || 0`, compare component-wise. -/
def compareVersions (a b : Option String) : Int :=
  cmpComponents ((jsSplitDot (jsOrStr a "0")).map jsParseIntOr0)
    ((jsSplitDot (jsOrStr b "0")).map jsParseIntOr0)

/-- C6. Version comparison: `compareVersions` is the component-wise
numeric comparison — `"1.10.0" > "1.9.9"`, `"2" == "2.0.0"` (missing
components are 0), `"1.2" < "1.2.1"`, and a non-numeric segment degrades
to 0 (`"1.x.0" == "1.0.0"`). -/
theorem C6_compareVersions :
    compareVersions (some "1.10.0") (some "1.9.9") > 0 ∧
      compareVersions (some "2") (some "2.0.0") = 0 ∧
      compareVersions (some "1.2") (some "1.2.1") < 0 ∧
      compareVersions (some "1.x.0") (some "1.0.0") = 0 := by
  refine ⟨?_, ?_, ?_, ?_⟩ <;> decide

/-- One emitted update action. -/
structure UpdateAction where
  key : String
  name : String
  reason : String
  currentVersion : Option String
  targetVersion : Option String
deriving DecidableEq

/-- Result of `checkModelUpdates` (modelsDir and the remote URL echo are
omitted — they are pass-through configuration). -/
structure CheckResult where
  updatesAvailable : Bool
  updates : List UpdateAction
deriving DecidableEq

/-- The per-entry loop of `checkModelUpdates`, in manifest order: a
required entry with no registry entry emits `missing` (and continues); an
entry present locally, when a remote manifest was used and both versions
are truthy, emits `new-version` if the manifest version is newer. -/
def checkEntries (registry : Registry) (remoteUsed : Bool) :
    List (String × ManifestEntry) → List UpdateAction
  | [] => []
  | (key, entry) :: rest =>
    match lookupAssoc registry.models key with
    | none =>
      if entry.required then
        ⟨key, jsOrStr entry.name key, "missing", none,
          (if strTruthy entry.version then entry.version else none)⟩ ::
          checkEntries registry remoteUsed rest
      else checkEntries registry remoteUsed rest
    | some localE =>
      if remoteUsed = true ∧ strTruthy entry.version = true ∧
          strTruthy localE.version = true ∧ compareVersions entry.version localE.version > 0 then
        ⟨key, jsOrStr entry.name key, "new-version", localE.version, entry.version⟩ ::
          checkEntries registry remoteUsed rest
      else checkEntries registry remoteUsed rest

/-- Model of `checkModelUpdates(options)`, taking the remote manifest as
already fetched (`none` = no remote URL configured; a fetch failure
rejects before this point): evaluate against the remote model set when
present, else the local manifest. -/
def checkModelUpdates (localManifest : Manifest) (registry : Registry)
    (remoteManifest : Option Manifest) : CheckResult :=
  let manifestToUse :=
    match remoteManifest with
    | some rm => rm
    | none => localManifest
  let updates := checkEntries registry remoteManifest.isSome manifestToUse.models
  ⟨updates.length > 0, updates⟩

/-- C7. Update detection scenario: a manifest whose only model is required
with a truthy version and no registry entry yields exactly one update with
reason `missing` and `targetVersion` the manifest version; the same
manifest with a registry entry present (at the same version) and no
remote manifest yields zero updates. -/
theorem C7_update_detection (k : String) (entry : ManifestEntry) (v : String)
    (hreq : entry.required = true) (hver : entry.version = some v) (hv : v ≠ "") :
    (checkModelUpdates ⟨[(k, entry)]⟩ ⟨[]⟩ none).updates =
      [⟨k, jsOrStr entry.name k, "missing", none, some v⟩] ∧
    (checkModelUpdates ⟨[(k, entry)]⟩ ⟨[]⟩ none).updatesAvailable = true ∧
    ∀ re : RegEntry, re.version = some v →
      checkModelUpdates ⟨[(k, entry)]⟩ ⟨[(k, re)]⟩ none = ⟨false, []⟩ := by
  have htr : strTruthy (some v) = true := by
    simp [strTruthy, hv]
  refine ⟨?_, ?_, ?_⟩
  · simp only [checkModelUpdates, checkEntries, lookupAssoc, hreq, if_pos rfl, if_true,
      hver, htr]
  · simp only [checkModelUpdates, checkEntries, lookupAssoc, hreq, if_pos rfl, if_true,
      hver, htr, List.length_cons, List.length_nil]
    rfl
  · intro re _
    have hc : ¬ (Option.isSome (none : Option Manifest) = true ∧ strTruthy entry.version = true ∧
        strTruthy re.version = true ∧ compareVersions entry.version re.version > 0) := by
      intro hc
      exact absurd hc.1 (by simp)
    simp only [checkModelUpdates, checkEntries, lookupAssoc, if_pos rfl, if_neg hc]
    rfl

/-- Witness for C7 at a concrete one-model manifest. -/
theorem C7_update_detection_witness :
    (checkModelUpdates ⟨[("m1", ⟨some "Model One", some "http://srv/m1", some "m1.bin",
        some "1.0", none, true⟩)]⟩ ⟨[]⟩ none).updates =
      [⟨"m1", jsOrStr (some "Model One") "m1", "missing", none, some "1.0"⟩] ∧
    (checkModelUpdates ⟨[("m1", ⟨some "Model One", some "http://srv/m1", some "m1.bin",
        some "1.0", none, true⟩)]⟩ ⟨[]⟩ none).updatesAvailable = true ∧
    ∀ re : RegEntry, re.version = some "1.0" →
      checkModelUpdates ⟨[("m1", ⟨some "Model One", some "http://srv/m1", some "m1.bin",
        some "1.0", none, true⟩)]⟩ ⟨[("m1", re)]⟩ none = ⟨false, []⟩ :=
  C7_update_detection "m1" ⟨some "Model One", some "http://srv/m1", some "m1.bin",
    some "1.0", none, true⟩ "1.0" rfl rfl (by decide)

/-! ### Redirect following in `fetchJson` (scripts/check-updates.js) -/

/-- One HTTP answer of the manifest server: status, optional `Location`,
and the parsed JSON body (`none` models unparsable JSON). -/
structure JsonAnswer where
  statusCode : Nat
  location : Option String
  body : Option Manifest
deriving DecidableEq

/-- Model of `fetchJson(url)`: on a 3xx status with a `Location` header it
recurses on the new URL with **no hop limit** (fuel-indexed embedding, as
for `requestStream`); a non-200 status rejects; a 200 resolves the parsed
body or rejects on invalid JSON. -/
def fetchJson (server : String → JsonAnswer) : Nat → String → Option (Except String Manifest)
  | 0, _ => none
  | fuel + 1, url =>
    let a := server url
    if 300 ≤ a.statusCode ∧ a.statusCode < 400 ∧ strTruthy a.location then
      fetchJson server fuel (jsOrStr a.location "")
    else if a.statusCode ≠ 200 then
      some (.error ("HTTP " ++ toString a.statusCode ++ " for " ++ url))
    else
      match a.body with
      | some m => some (.ok m)
      | none => some (.error ("Invalid JSON from " ++ url))

/-- C8. Against a server that answers every request with a 3xx and a
`Location` header, both `requestStream` (model-weight transfers) and
`fetchJson` (remote-manifest fetch) follow the redirect unconditionally:
for every hop budget the recursion has neither resolved nor rejected —
the operation never settles, instead of failing at a bounded hop limit as
the claim requires. -/
theorem C8_redirect_unbounded (server : String → HttpAnswer) (jserver : String → JsonAnswer)
    (hs : ∀ u, 300 ≤ (server u).statusCode ∧ (server u).statusCode < 400 ∧
      strTruthy (server u).location = true)
    (hj : ∀ u, 300 ≤ (jserver u).statusCode ∧ (jserver u).statusCode < 400 ∧
      strTruthy (jserver u).location = true) :
    ∀ fuel url, requestStream server fuel url = none ∧ fetchJson jserver fuel url = none := by
  intro fuel
  induction fuel with
  | zero => intro url; exact ⟨rfl, rfl⟩
  | succ n ih =>
    intro url
    constructor
    · simp only [requestStream]
      rw [if_pos (hs url)]
      exact (ih _).1
    · simp only [fetchJson]
      rw [if_pos (hj url)]
      exact (ih _).2

/-- A weight server that always redirects back to the same URL. -/
def loopServer : String → HttpAnswer :=
  fun _ => ⟨302, some "http://loop", none, [], .finished⟩

/-- A manifest server that always redirects back to the same URL. -/
def loopJsonServer : String → JsonAnswer :=
  fun _ => ⟨302, some "http://loop", none⟩

/-- Witness for C8: after 50 hops on the looping servers, neither
operation has settled. -/
theorem C8_redirect_unbounded_witness :
    requestStream loopServer 50 "http://loop" = none ∧
      fetchJson loopJsonServer 50 "http://loop" = none :=
  C8_redirect_unbounded loopServer loopJsonServer
    (fun u => by simp [loopServer, strTruthy])
    (fun u => by simp [loopJsonServer, strTruthy]) 50 "http://loop"

/-! ### Job submission (frontend/src/api-client.js and preload.js) -/

/-- The `result` object of a submit response body. -/
structure SubmitResult where
  task_id : Option String
deriving DecidableEq

/-- The JSON body of a submit response: optional `error` and `detail`
fields and the optional `result` object. -/
structure SubmitJson where
  error : Option String
  detail : Option String
  result : Option SubmitResult
deriving DecidableEq

/-- A fetch response as seen by the clients: `ok`, numeric `status`, and
the parsed JSON body. -/
structure HttpJsonResponse where
  ok : Bool
  status : Nat
  json : SubmitJson
deriving DecidableEq

/-- Model of `parseResponse(response, fallbackMessage)` from
frontend/src/api-client.js: on a non-ok response throw
`json?.error || json?.detail || fallbackMessage`; otherwise return the
body unchanged. -/
def parseResponse (response : HttpJsonResponse) (fallbackMessage : String) :
    Except String SubmitJson :=
  if response.ok = false then
    .error (jsOrStr response.json.error (jsOrStr response.json.detail fallbackMessage))
  else
    .ok response.json

/-- Model of `submitJob(payload)`: POST then `parseResponse` with the
fallback message "Job submit failed". -/
def submitJob (response : HttpJsonResponse) : Except String SubmitJson :=
  parseResponse response "Job submit failed"

/-- Model of the submit phase of `submitAndPoll` in preload.js: non-ok
status throws, then `submitData?.result?.task_id` is demanded truthy. -/
def submitAndPollSubmitPhase (resp : HttpJsonResponse) : Except String String :=
  if resp.ok = false then
    .error ("Submit failed: " ++ toString resp.status)
  else
    match resp.json.result with
    | none => .error "No task_id returned"
    | some r =>
      match r.task_id with
      | none => .error "No task_id returned"
      | some t => if t = "" then .error "No task_id returned" else .ok t

/-- A success response whose body carries no task identifier. -/
def okNoTaskResponse : HttpJsonResponse := ⟨true, 200, ⟨none, none, some ⟨none⟩⟩⟩

/-- C9 counterexample. `submitJob` resolves successfully on an ok response
that omits the task identifier: `parseResponse` validates only
`response.ok`, so the claimed rejection on a missing task identifier does
not happen in `submitJob`. -/
theorem C9_submit_counterexample :
    submitJob okNoTaskResponse = .ok okNoTaskResponse.json ∧
      okNoTaskResponse.json.result.map SubmitResult.task_id = some none := by
  exact ⟨rfl, rfl⟩

/-- C9 (amended). `submitJob` rejects exactly on a non-success HTTP
status (with the backend-supplied error/detail or the fallback message)
and performs no task-identifier validation: any ok response resolves with
the body unchanged, task identifier or not. The missing-task-id guard
lives in the caller: the submit phase of `submitAndPoll` in preload.js
rejects with "No task_id returned" whenever the ok response omits a
truthy `result.task_id`, and resolves only with a non-empty identifier. -/
theorem C9_submit_failure_conditions_amended (resp : HttpJsonResponse) :
    (resp.ok = false →
      submitJob resp = .error (jsOrStr resp.json.error (jsOrStr resp.json.detail "Job submit failed"))) ∧
    (resp.ok = true → submitJob resp = .ok resp.json) ∧
    (resp.ok = true →
      (resp.json.result = none ∨
        (∃ r, resp.json.result = some r ∧ (r.task_id = none ∨ r.task_id = some ""))) →
      submitAndPollSubmitPhase resp = .error "No task_id returned") ∧
    (∀ t, t ≠ "" → resp.ok = true → resp.json.result = some ⟨some t⟩ →
      submitAndPollSubmitPhase resp = .ok t) := by
  refine ⟨?_, ?_, ?_, ?_⟩
  · intro hok
    simp [submitJob, parseResponse, hok]
  · intro hok
    simp [submitJob, parseResponse, hok]
  · intro hok hmiss
    have hok' : ¬ resp.ok = false := by rw [hok]; simp
    rcases hmiss with hnone | ⟨r, hr, htid⟩
    · simp only [submitAndPollSubmitPhase, if_neg hok', hnone]
    · rcases htid with h1 | h1 <;>
        simp [submitAndPollSubmitPhase, if_neg hok', hr, h1]
  · intro t ht hok hres
    have hok' : ¬ resp.ok = false := by rw [hok]; simp
    simp only [submitAndPollSubmitPhase, if_neg hok', hres, if_neg ht]

/-- Witness for the amended C9 at three concrete responses. -/
theorem C9_submit_failure_conditions_witness :
    submitJob ⟨false, 500, ⟨some "boom", none, none⟩⟩ = .error "boom" ∧
      submitAndPollSubmitPhase okNoTaskResponse = .error "No task_id returned" ∧
      submitAndPollSubmitPhase ⟨true, 200, ⟨none, none, some ⟨some "task-1"⟩⟩⟩ = .ok "task-1" := by
  refine ⟨?_, ?_, ?_⟩
  · have h := (C9_submit_failure_conditions_amended ⟨false, 500, ⟨some "boom", none, none⟩⟩).1 rfl
    exact h
  · exact (C9_submit_failure_conditions_amended okNoTaskResponse).2.2.1 rfl
      (Or.inr ⟨⟨none⟩, rfl, Or.inl rfl⟩)
  · exact (C9_submit_failure_conditions_amended ⟨true, 200, ⟨none, none, some ⟨some "task-1"⟩⟩⟩).2.2.2
      "task-1" (by decide) rfl rfl

end Playe
